import Mathlib

/-!
Verification of the rc-zip sample CLI (`samples/rc-zip-sample/src/main.rs`).

A shallow embedding of the core logic: the display-width-bounded path
truncation algorithm (`truncate_path`, lines 245-267), the `info`
aggregation pass (lines 103-149), the `Optional` display wrapper
(lines 8-34), the verbose `list` row rendering (lines 172-203), and the
`extract` content printing (lines 211-223).

Conventions of the embedding:
* Rust `&str` values are `List Char` (Unicode scalar values); `str::len`
  (UTF-8 byte count) is `byteLen`, `str::chars().count()` is `List.length`.
* `u64`/count arithmetic is over `Nat`; none of the properties below
  depends on fixed-width wraparound of the additions, so they are embedded
  as unbounded sums.  The one place where fixed-width arithmetic does
  matter — the `usize` subtraction `limit - 3`, which panics on underflow —
  is embedded by returning `Option`, with `none` standing for the panic.
* `HashSet::insert` is `Finset.insert` on `Finset Nat` (versions and
  methods are abstracted to their numeric identity).
-/

namespace RcZip

/-- UTF-8 byte length of a string, as Rust's `str::len` (`x.len()` in
`truncate_path`): the sum of the UTF-8 sizes of its scalar values. -/
def byteLen (l : List Char) : Nat := (l.map Char.utf8Size).sum

/-- One step of directory-component elision, from lines 262-265 of
`truncate_path`: `token.char_indices().skip(1).next()` is `Some (i, _)`
exactly when the token has at least two characters, in which case
`&token[..i]` (the first character) is kept; otherwise (zero or one
characters) the token is kept whole.  Both cases are `List.take 1`. -/
def elide (t : List Char) : List Char := t.take 1

/-- The `loop` of `truncate_path` (lines 248-266).  `name` is
`name_tokens`, the second argument is `rest_tokens`.  Each iteration
computes `len_separators = name_tokens.len() + rest_tokens.len() - 1` and
`len_strings` = the summed byte lengths of all tokens; if their total is
under `limit` it joins everything with `/` and stops.  Otherwise, if no
tokens remain it joins what was collected and hard-truncates to the first
`limit - 3` characters plus `"..."` — the `usize` subtraction `limit - 3`
underflows (panics) when `limit < 3`, embedded as `none`.  Otherwise it
pops the front token, elides it, and continues. -/
def truncLoop (limit : Nat) : List (List Char) → List (List Char) → Option (List Char)
  | name, [] =>
    if name.length - 1 + ((name.map byteLen).sum) < limit then
      some (List.intercalate ['/'] name)
    else if limit < 3 then
      none
    else
      some ((List.intercalate ['/'] name).take (limit - 3) ++ ['.', '.', '.'])
  | name, t :: rest =>
    if name.length + (t :: rest).length - 1
        + ((name.map byteLen).sum + ((t :: rest).map byteLen).sum) < limit then
      some (List.intercalate ['/'] (name ++ t :: rest))
    else
      truncLoop limit (name ++ [elide t]) rest

/-- `truncate_path` (lines 245-267): split the path on `/` and run the
elision loop starting from an empty collected prefix.  `none` models the
panic on `usize` underflow of `limit - 3`. -/
def truncatePath (p : List Char) (limit : Nat) : Option (List Char) :=
  truncLoop limit [] (p.splitOn '/')

/-! ### The `info` aggregation pass (lines 103-149) -/

/-- The kind of an entry, as dispatched by `entry.contents()`
(`EntryContents::File` / `Directory` / `Symlink`). -/
inductive EntryKind
  | file
  | directory
  | symlink
deriving DecidableEq

/-- One archive entry as consumed by the aggregation pass: the fields of
`rc_zip::Entry` that `info` reads.  Versions and methods are abstracted to
their numeric identity; sizes are the `u64` size fields. -/
structure Entry where
  creatorVersion : Nat
  readerVersion : Nat
  method : Nat
  compressedSize : Nat
  uncompressedSize : Nat
  kind : EntryKind
deriving DecidableEq

/-- The mutable accumulator of `info` (lines 109-116): version sets, the
method set, the running size totals, and the three kind counters. -/
structure InfoStats where
  creatorVersions : Finset Nat
  readerVersions : Finset Nat
  methods : Finset Nat
  compressedSize : Nat
  uncompressedSize : Nat
  numDirs : Nat
  numSymlinks : Nat
  numFiles : Nat

/-- The initial accumulator: empty sets and zero totals/counters. -/
def infoInit : InfoStats :=
  { creatorVersions := ∅, readerVersions := ∅, methods := ∅,
    compressedSize := 0, uncompressedSize := 0,
    numDirs := 0, numSymlinks := 0, numFiles := 0 }

/-- One iteration of the `for entry in archive.entries()` loop of `info`
(lines 118-135): insert both versions unconditionally, then dispatch on the
entry kind — Symlink and Directory only bump their counter; File bumps the
file counter, inserts the method, and adds both sizes to the totals. -/
def infoStep (st : InfoStats) (e : Entry) : InfoStats :=
  let st1 := { st with creatorVersions := insert e.creatorVersion st.creatorVersions,
                       readerVersions := insert e.readerVersion st.readerVersions }
  match e.kind with
  | EntryKind.symlink => { st1 with numSymlinks := st1.numSymlinks + 1 }
  | EntryKind.directory => { st1 with numDirs := st1.numDirs + 1 }
  | EntryKind.file =>
    { st1 with methods := insert e.method st1.methods,
               numFiles := st1.numFiles + 1,
               compressedSize := st1.compressedSize + e.compressedSize,
               uncompressedSize := st1.uncompressedSize + e.uncompressedSize }

/-- The whole aggregation pass of `info`: fold the loop body over the
archive's entries in order. -/
def infoStats (es : List Entry) : InfoStats := es.foldl infoStep infoInit

/-- The kind test used to state which entries feed the size totals. -/
def isFile (e : Entry) : Bool := decide (e.kind = EntryKind.file)

/-! ### Rendering (lines 8-34, 172-203, 211-223) -/

/-- The `Display` implementation of the `Optional<T>` wrapper (lines
10-21): a present value is formatted by the inner formatter, an absent one
renders as the placeholder glyph `∅`. -/
def optionalDisplay (f : α → List Char) : Option α → List Char
  | some x => f x
  | none => ['∅']

/-- Rust's `Display` for an unsigned integer: its decimal digits. -/
def natDisplay (n : Nat) : List Char := (Nat.repr n).toList

/-- The verbose columns of one `list` row (lines 181-187):
`"\t{modified}\t{uid}\t{gid}"` with `uid` and `gid` both rendered through
`Optional`'s `Display`. -/
def verboseCols (modified : List Char) (uid gid : Option Nat) : List Char :=
  ['\t'] ++ modified ++ ['\t'] ++ optionalDisplay natDisplay uid
    ++ ['\t'] ++ optionalDisplay natDisplay gid

/-- One verbose `list` row (lines 172-203).  `rawName` is `entry.name()`
and is truncated at width 55; `size`, `mode` and `modified` stand for the
already-formatted fields.  For a symlink the target is read with
`read_to_string(..).unwrap()`: `readTarget` is `some` of the decoded text
on success, and `none` when the read fails or the bytes are not valid
UTF-8 — in that case the `.unwrap()` panics, so the row computation
yields `none` (there is no error value and no fallback text). -/
def listRowVerbose (mode rawName size modified : List Char) (uid gid : Option Nat)
    (kind : EntryKind) (readTarget : Option (List Char)) : Option (List Char) :=
  match truncatePath rawName 55 with
  | none => none
  | some name =>
    let base := mode ++ ['\t'] ++ name ++ ['\t'] ++ size ++ verboseCols modified uid gid
    match kind with
    | EntryKind.symlink =>
      match readTarget with
      | some target => some (base ++ ['\t'] ++ target ++ ['\n'])
      | none => none
    | _ => some (base ++ ['\n'])

/-- Escaping of one character under Rust's `{:?}` formatting of `str`
(`char::escape_debug_ext` with `escape_grapheme_extended` and
`escape_double_quote` set): NUL, tab, carriage return, newline, backslash
and double quote become two-character backslash escapes; every other
character is either passed through verbatim or rendered as a `\u{...}`
escape of its scalar value in lowercase hexadecimal.  Rust decides
between those last two outcomes with the Unicode tables behind
`char::is_grapheme_extended` and `is_printable` (escape when
grapheme-extended or not printable); those tables enter this model as the
parameter `uescape` (`true` = render as `\u{...}`), and the theorems
below constrain `uescape` only at characters where the real tables'
verdict is certain — printable ASCII is never `\u`-escaped. -/
def escapeDebugChar (uescape : Char → Bool) (c : Char) : List Char :=
  if c = '\x00' then ['\\', '0']
  else if c = '\t' then ['\\', 't']
  else if c = '\r' then ['\\', 'r']
  else if c = '\n' then ['\\', 'n']
  else if c = '\\' then ['\\', '\\']
  else if c = '"' then ['\\', '"']
  else if uescape c then ['\\', 'u', '\x7b'] ++ Nat.toDigits 16 c.toNat ++ ['\x7d']
  else [c]

/-- Rust's `{:?}` (Debug) rendering of a string slice: the escaped
characters surrounded by double quotes, with the Unicode printability
tables abstracted as `uescape`. -/
def strDebug (uescape : Char → Bool) (s : List Char) : List Char :=
  ['"'] ++ (s.map (escapeDebugChar uescape)).flatten ++ ['"']

/-- The line printed by `extract` for an entry whose contents decoded as
valid UTF-8 text `s` (line 219): `println!("contents = {:?}", s)`. -/
def extractPrintText (uescape : Char → Bool) (s : List Char) : List Char :=
  "contents = ".toList ++ strDebug uescape s ++ ['\n']

/-! ### Helper lemmas about `byteLen` and joining with `/` -/

theorem byteLen_nil : byteLen [] = 0 := rfl

theorem byteLen_append (a b : List Char) : byteLen (a ++ b) = byteLen a + byteLen b := by
  simp [byteLen]

theorem length_le_byteLen (l : List Char) : l.length ≤ byteLen l := by
  induction l with
  | nil => simp [byteLen]
  | cons c l ih =>
    have hc := Char.utf8Size_pos c
    simp only [List.length_cons, byteLen, List.map_cons, List.sum_cons]
    simp only [byteLen] at ih
    omega

theorem intercalate_slash_single (t : List Char) : List.intercalate ['/'] [t] = t := by
  simp [List.intercalate]

theorem intercalate_slash_cons₂ (a b : List Char) (ts : List (List Char)) :
    List.intercalate ['/'] (a :: b :: ts) = a ++ '/' :: List.intercalate ['/'] (b :: ts) := by
  simp [List.intercalate]

theorem byteLen_intercalate (ts : List (List Char)) :
    byteLen (List.intercalate ['/'] ts) = (ts.map byteLen).sum + (ts.length - 1) := by
  induction ts with
  | nil => simp [List.intercalate, byteLen]
  | cons a tl ih =>
    cases tl with
    | nil => simp [intercalate_slash_single]
    | cons b tl' =>
      rw [intercalate_slash_cons₂, byteLen_append]
      have hsl : byteLen ('/' :: List.intercalate ['/'] (b :: tl'))
          = 1 + byteLen (List.intercalate ['/'] (b :: tl')) := by
        simp only [byteLen, List.map_cons, List.sum_cons]
        have : '/'.utf8Size = 1 := by decide
        omega
      rw [hsl, ih]
      simp only [List.map_cons, List.sum_cons, List.length_cons]
      omega

theorem splitOn_slash_ne_nil (p : List Char) : p.splitOn '/' ≠ [] := by
  rw [List.splitOn]; exact List.splitOnP_ne_nil _ _

theorem intercalate_splitOn_slash (p : List Char) :
    List.intercalate ['/'] (p.splitOn '/') = p :=
  @List.intercalate_splitOn Char p '/' _

theorem splitOn_slash_single (p : List Char) (h : '/' ∉ p) : p.splitOn '/' = [p] := by
  rw [List.splitOn]
  refine List.splitOnP_eq_single _ _ ?_
  intro x hx hb
  exact h (beq_iff_eq.mp hb ▸ hx)

/-- Totality and length bound for the elision loop: as soon as `limit ≥ 3`
the `usize` subtraction `limit - 3` cannot underflow, the loop always
returns a string, and that string has at most `limit` characters. -/
theorem truncLoop_total_le (limit : Nat) (h3 : 3 ≤ limit) :
    ∀ (rest name : List (List Char)),
      ∃ r, truncLoop limit name rest = some r ∧ r.length ≤ limit := by
  intro rest
  induction rest with
  | nil =>
    intro name
    simp only [truncLoop]
    by_cases hc : name.length - 1 + (name.map byteLen).sum < limit
    · refine ⟨_, by rw [if_pos hc], ?_⟩
      have h1 := length_le_byteLen (List.intercalate ['/'] name)
      rw [byteLen_intercalate] at h1
      omega
    · rw [if_neg hc, if_neg (by omega)]
      refine ⟨_, rfl, ?_⟩
      have ht : ((List.intercalate ['/'] name).take (limit - 3)).length ≤ limit - 3 := by
        simp [List.length_take]
      simp only [List.length_append, List.length_cons, List.length_nil]
      omega
  | cons t rest ih =>
    intro name
    simp only [truncLoop]
    by_cases hc : name.length + (t :: rest).length - 1
        + ((name.map byteLen).sum + ((t :: rest).map byteLen).sum) < limit
    · refine ⟨_, by rw [if_pos hc], ?_⟩
      have h1 := length_le_byteLen (List.intercalate ['/'] (name ++ t :: rest))
      rw [byteLen_intercalate] at h1
      simp only [List.map_append, List.sum_append, List.length_append] at h1
      omega
    · rw [if_neg hc]
      exact ih (name ++ [elide t])

/-- Evaluation of `truncate_path` on a single-token path (no `/`) whose
byte length reaches the limit: the token is elided to its first character;
if that now fits the loop stops there, otherwise the hard-truncation
branch runs (underflowing when the limit is below 3). -/
theorem truncatePath_single_eval (p : List Char) (L : Nat) (hs : '/' ∉ p)
    (h1 : L ≤ byteLen p) :
    truncatePath p L =
      if byteLen (p.take 1) < L then some (p.take 1)
      else if L < 3 then none
      else some ((p.take 1).take (L - 3) ++ ['.', '.', '.']) := by
  unfold truncatePath
  rw [splitOn_slash_single p hs]
  simp only [truncLoop, elide, List.length_nil, List.length_cons, List.map_nil, List.map_cons,
    List.sum_nil, List.sum_cons, List.nil_append, intercalate_slash_single,
    List.length_singleton, Nat.zero_add, Nat.add_zero, Nat.sub_self]
  rw [if_neg (by omega)]

/-- Claim C2: for every path string `p` and every limit `L ≥ 4`,
`truncate_path` returns a display string of at most `L` characters
(codepoints, the unit the width limit is expressed in). -/
theorem truncatePath_length_le (p : List Char) (L : Nat) (h : 4 ≤ L) :
    ∃ r, truncatePath p L = some r ∧ r.length ≤ L :=
  truncLoop_total_le L (by omega) (p.splitOn '/') []

/-- Witness for claim C2 at the concrete path `"a/bb/ccc/dddd/eeeee"` and
limit `15`. -/
theorem truncatePath_length_le_witness :
    ∃ r, truncatePath "a/bb/ccc/dddd/eeeee".toList 15 = some r ∧ r.length ≤ 15 :=
  truncatePath_length_le "a/bb/ccc/dddd/eeeee".toList 15 (by decide)

/-- Claim C3, counterexample: the stop-check of `truncate_path` measures
UTF-8 bytes (`str::len`), not codepoints.  The path `"ééé"` has 3
codepoints (< 4, and it contains no separator) but 6 bytes, so with limit
4 it is not returned unchanged: it is elided to `"é"`. -/
theorem truncatePath_codepoints_counterexample :
    "ééé".toList.length < 4 ∧
      truncatePath "ééé".toList 4 ≠ some "ééé".toList ∧
      truncatePath "ééé".toList 4 = some ['é'] := by decide

/-- Claim C3, amended: truncation lengths at the stop-check are measured
in UTF-8 bytes, not codepoints.  For every path `p` whose byte length,
counting the `/` separators, is strictly below the limit `L`,
`truncate_path` returns `p` unchanged. -/
theorem truncatePath_short_id (p : List Char) (L : Nat) (h : byteLen p < L) :
    truncatePath p L = some p := by
  unfold truncatePath
  cases hsp : p.splitOn '/' with
  | nil => exact absurd hsp (splitOn_slash_ne_nil p)
  | cons t rest =>
    have hj : List.intercalate ['/'] (t :: rest) = p := by
      rw [← hsp]; exact intercalate_splitOn_slash p
    have hb := byteLen_intercalate (t :: rest)
    rw [hj] at hb
    simp only [truncLoop, List.length_nil, List.length_cons, List.map_nil, List.map_cons,
      List.sum_nil, List.sum_cons, List.nil_append, Nat.zero_add]
    rw [if_pos (by simp only [List.length_cons, List.map_cons, List.sum_cons] at hb; omega), hj]

/-- Witness for the amended claim C3 at the concrete path `"a/b.rs"`
(6 bytes) and limit `10`. -/
theorem truncatePath_short_id_witness :
    truncatePath "a/b.rs".toList 10 = some "a/b.rs".toList :=
  truncatePath_short_id "a/b.rs".toList 10 (by decide)

/-- Claim C4, counterexample: a single token longer than the limit is not
hard-truncated with an ellipsis.  `"abcdefgh"` with limit 5 is elided to
its first character `"a"`, not to the claimed `"ab..."` (first `5 - 3`
codepoints plus ellipsis). -/
theorem truncatePath_single_token_counterexample :
    truncatePath "abcdefgh".toList 5 = some ['a'] ∧
      truncatePath "abcdefgh".toList 5 ≠ some "ab...".toList := by decide

/-- Claim C4, amended: a single-token path whose byte length reaches the
limit is first elided to its first codepoint like any other token, and
when that elided result fits under the limit it is returned as is, with no
ellipsis; the joined string is hard-truncated to `limit - 3` codepoints
plus `"..."` only when it still fails the stop-check after all tokens have
been elided. -/
theorem truncatePath_single_token_elided (p : List Char) (L : Nat) (hs : '/' ∉ p)
    (h1 : L ≤ byteLen p) (h2 : byteLen (p.take 1) < L) :
    truncatePath p L = some (p.take 1) := by
  rw [truncatePath_single_eval p L hs h1, if_pos h2]

/-- Witness for the amended claim C4 at the concrete single-token path
`"abcdefgh"` and limit `5`. -/
theorem truncatePath_single_token_elided_witness :
    truncatePath "abcdefgh".toList 5 = some ("abcdefgh".toList.take 1) :=
  truncatePath_single_token_elided "abcdefgh".toList 5 (by decide) (by decide) (by decide)

/-- Claim C9, counterexample: with limit 2 the function does not panic on
every single-token path of length at least 2 — the ASCII path `"ab"`
(no `/`, length 2) is elided to `"a"`, which passes the stop-check, and
the string `"a"` is returned without ever reaching the underflowing
`limit - 3`. -/
theorem truncatePath_limit_two_counterexample :
    '/' ∉ "ab".toList ∧ 2 ≤ "ab".toList.length ∧
      truncatePath "ab".toList 2 = some ['a'] := by decide

/-- Claim C9, amended: `truncate_path` is total for `limit ≥ 3` (the
`usize` subtraction `limit - 3` cannot underflow).  For `limit = 1`, every
nonempty single-token path reaches the hard-truncate branch and the
subtraction underflows (a panic, embedded as `none`).  For `limit = 2`, a
single-token path of byte length at least 2 underflows exactly when its
first codepoint occupies at least 2 bytes (otherwise the elided
single-character string passes the stop-check and is returned). -/
theorem truncatePath_totality (p : List Char) (L : Nat) :
    (3 ≤ L → ∃ r, truncatePath p L = some r) ∧
    ('/' ∉ p → p ≠ [] → truncatePath p 1 = none) ∧
    ('/' ∉ p → 2 ≤ byteLen p → (truncatePath p 2 = none ↔ 2 ≤ byteLen (p.take 1))) := by
  have htake : p ≠ [] → 1 ≤ byteLen (p.take 1) := by
    intro hne
    have hl : 1 ≤ p.length := List.length_pos.mpr hne
    have h1 : (p.take 1).length = 1 := by rw [List.length_take]; omega
    have := length_le_byteLen (p.take 1)
    omega
  refine ⟨?_, ?_, ?_⟩
  · intro h3
    obtain ⟨r, hr, _⟩ := truncLoop_total_le L h3 (p.splitOn '/') []
    exact ⟨r, hr⟩
  · intro hs hne
    have hp : 1 ≤ byteLen p := le_trans (List.length_pos.mpr hne) (length_le_byteLen p)
    rw [truncatePath_single_eval p 1 hs hp, if_neg (by have := htake hne; omega),
      if_pos (by omega)]
  · intro hs hb
    rw [truncatePath_single_eval p 2 hs hb]
    by_cases h2 : byteLen (p.take 1) < 2
    · rw [if_pos h2]
      constructor
      · intro hcontra; exact absurd hcontra (by simp)
      · intro h2'; omega
    · rw [if_neg h2, if_pos (by omega)]
      exact ⟨fun _ => by omega, fun _ => rfl⟩

/-- Witness for the amended claim C9 at the concrete single-token path
`"ab"`: with limit 3 a result exists, with limit 1 the code panics, and
with limit 2 it does not (its first codepoint is one byte). -/
theorem truncatePath_totality_witness :
    (∃ r, truncatePath "ab".toList 3 = some r) ∧
      truncatePath "ab".toList 1 = none ∧
      ¬truncatePath "ab".toList 2 = none :=
  ⟨(truncatePath_totality "ab".toList 3).1 (by decide),
   (truncatePath_totality "ab".toList 1).2.1 (by decide) (by decide),
   fun hn =>
     absurd (((truncatePath_totality "ab".toList 2).2.2 (by decide) (by decide)).mp hn)
       (by decide)⟩

/-! ### Aggregation-pass lemmas and theorems -/

/-- Invariant of the aggregation fold: every visited entry bumps exactly
one of the three kind counters, so their sum grows by one per entry. -/
theorem infoFold_counts (es : List Entry) (st : InfoStats) :
    (es.foldl infoStep st).numFiles + (es.foldl infoStep st).numDirs
        + (es.foldl infoStep st).numSymlinks
      = st.numFiles + st.numDirs + st.numSymlinks + es.length := by
  induction es generalizing st with
  | nil => simp
  | cons e es ih =>
    rw [List.foldl_cons, ih (infoStep st e)]
    have hstep : (infoStep st e).numFiles + (infoStep st e).numDirs
        + (infoStep st e).numSymlinks = st.numFiles + st.numDirs + st.numSymlinks + 1 := by
      cases h : e.kind <;> (simp [infoStep, h]; omega)
    simp only [List.length_cons]
    omega

/-- Invariant of the aggregation fold for the size totals and the method
set: only File-kind entries contribute. -/
theorem infoFold_sizes (es : List Entry) (st : InfoStats) :
    (es.foldl infoStep st).compressedSize
        = st.compressedSize + ((es.filter isFile).map Entry.compressedSize).sum ∧
      (es.foldl infoStep st).uncompressedSize
        = st.uncompressedSize + ((es.filter isFile).map Entry.uncompressedSize).sum ∧
      (es.foldl infoStep st).methods
        = st.methods ∪ ((es.filter isFile).map Entry.method).toFinset := by
  induction es generalizing st with
  | nil => simp
  | cons e es ih =>
    rw [List.foldl_cons]
    obtain ⟨ih1, ih2, ih3⟩ := ih (infoStep st e)
    cases h : e.kind with
    | file =>
      have hf : isFile e = true := by simp [isFile, h]
      have hc : (infoStep st e).compressedSize = st.compressedSize + e.compressedSize := by
        simp [infoStep, h]
      have hu : (infoStep st e).uncompressedSize = st.uncompressedSize + e.uncompressedSize := by
        simp [infoStep, h]
      have hm : (infoStep st e).methods = insert e.method st.methods := by
        simp [infoStep, h]
      refine ⟨?_, ?_, ?_⟩
      · rw [ih1, hc, List.filter_cons_of_pos hf]
        simp only [List.map_cons, List.sum_cons]
        omega
      · rw [ih2, hu, List.filter_cons_of_pos hf]
        simp only [List.map_cons, List.sum_cons]
        omega
      · rw [ih3, hm, List.filter_cons_of_pos hf]
        simp only [List.map_cons, List.toFinset_cons]
        rw [Finset.insert_union, Finset.union_insert]
    | directory =>
      have hf : isFile e = false := by simp [isFile, h]
      have hsame : (infoStep st e).compressedSize = st.compressedSize ∧
          (infoStep st e).uncompressedSize = st.uncompressedSize ∧
          (infoStep st e).methods = st.methods := by
        refine ⟨?_, ?_, ?_⟩ <;> simp [infoStep, h]
      rw [List.filter_cons_of_neg (by simp [hf])]
      exact ⟨by rw [ih1, hsame.1], by rw [ih2, hsame.2.1], by rw [ih3, hsame.2.2]⟩
    | symlink =>
      have hf : isFile e = false := by simp [isFile, h]
      have hsame : (infoStep st e).compressedSize = st.compressedSize ∧
          (infoStep st e).uncompressedSize = st.uncompressedSize ∧
          (infoStep st e).methods = st.methods := by
        refine ⟨?_, ?_, ?_⟩ <;> simp [infoStep, h]
      rw [List.filter_cons_of_neg (by simp [hf])]
      exact ⟨by rw [ih1, hsame.1], by rw [ih2, hsame.2.1], by rw [ih3, hsame.2.2]⟩

/-- Claim C5: after the aggregation pass, the file, directory and symlink
counters sum to the number of entries visited — each entry increments
exactly one of the three. -/
theorem infoStats_counts (es : List Entry) :
    (infoStats es).numFiles + (infoStats es).numDirs + (infoStats es).numSymlinks
      = es.length := by
  have h := infoFold_counts es infoInit
  simpa [infoStats, infoInit] using h

/-- Claim C6: the aggregation pass accumulates the compressed and
uncompressed size totals only over File-kind entries, and likewise only
File entries insert their compression method into the method set;
Directory and Symlink entries contribute to neither. -/
theorem infoStats_sizes_files_only (es : List Entry) :
    (infoStats es).compressedSize = ((es.filter isFile).map Entry.compressedSize).sum ∧
      (infoStats es).uncompressedSize = ((es.filter isFile).map Entry.uncompressedSize).sum ∧
      (infoStats es).methods = ((es.filter isFile).map Entry.method).toFinset := by
  have h := infoFold_sizes es infoInit
  simpa [infoStats, infoInit, Finset.empty_union] using h

/-- Claim C1 (code bug): for an archive with zero File-kind entries the
accumulated uncompressed total is 0, yet line 144 unconditionally computes
the displayed ratio as
`compressed_size as f64 / uncompressed_size as f64 * 100.0` — a division
whose divisor is exactly this zero total, with no omitted or
not-applicable guard. -/
theorem infoStats_ratio_divisor_zero (es : List Entry)
    (h : ∀ e ∈ es, e.kind ≠ EntryKind.file) :
    (infoStats es).uncompressedSize = 0 := by
  have hf : es.filter isFile = [] := by
    rw [List.filter_eq_nil_iff]
    intro e he
    simp [isFile, h e he]
  rw [(infoStats_sizes_files_only es).2.1, hf]
  rfl

/-- Witness for claim C1: an archive holding one Directory entry (of
nonzero recorded sizes) has no File entry, and its aggregated
uncompressed total — the divisor of the displayed ratio — is 0. -/
theorem infoStats_ratio_divisor_zero_witness :
    (∀ e ∈ [({ creatorVersion := 20, readerVersion := 20, method := 8,
               compressedSize := 100, uncompressedSize := 1024,
               kind := EntryKind.directory } : Entry)], e.kind ≠ EntryKind.file) ∧
      (infoStats [({ creatorVersion := 20, readerVersion := 20, method := 8,
                     compressedSize := 100, uncompressedSize := 1024,
                     kind := EntryKind.directory } : Entry)]).uncompressedSize = 0 :=
  ⟨by decide, infoStats_ratio_divisor_zero _ (by decide)⟩

/-! ### Rendering theorems -/

/-- A printable ASCII character other than backslash and double quote —
on which the real Unicode tables certainly decide against a `\u` escape,
so `uescape` is constrained to `false` there — passes through `{:?}`
escaping unchanged. -/
theorem escapeDebugChar_eq_self (uescape : Char → Bool) (c : Char)
    (hu : uescape c = false)
    (h : 0x20 ≤ c.toNat ∧ c.toNat ≤ 0x7e ∧ c ≠ '\\' ∧ c ≠ '"') :
    escapeDebugChar uescape c = [c] := by
  obtain ⟨h1, _, h3, h4⟩ := h
  have h0 : c ≠ '\x00' := by intro he; rw [he] at h1; exact absurd h1 (by decide)
  have ht : c ≠ '\t' := by intro he; rw [he] at h1; exact absurd h1 (by decide)
  have hr : c ≠ '\r' := by intro he; rw [he] at h1; exact absurd h1 (by decide)
  have hn : c ≠ '\n' := by intro he; rw [he] at h1; exact absurd h1 (by decide)
  rw [escapeDebugChar, if_neg h0, if_neg ht, if_neg hr, if_neg hn, if_neg h3, if_neg h4]
  simp [hu]

/-- Escaping a string of printable ASCII characters free of backslash and
double quote is the identity. -/
theorem flatten_escape_plain (uescape : Char → Bool) (s : List Char)
    (hu : ∀ c ∈ s, uescape c = false)
    (h : ∀ c ∈ s, 0x20 ≤ c.toNat ∧ c.toNat ≤ 0x7e ∧ c ≠ '\\' ∧ c ≠ '"') :
    (s.map (escapeDebugChar uescape)).flatten = s := by
  induction s with
  | nil => rfl
  | cons c cs ih =>
    simp only [List.map_cons, List.flatten_cons]
    rw [escapeDebugChar_eq_self uescape c (hu c (by simp)) (h c (by simp)),
      ih (fun d hd => hu d (by simp [hd])) (fun d hd => h d (by simp [hd]))]
    rfl

/-- Claim C7, counterexample: `extract` prints the decoded text through
`{:?}` (the Debug formatter), which escapes control characters.  For the
valid UTF-8 contents `"a\nb"` the printed line contains the two-character
escape backslash-`n`, and the exact text — with a real newline — appears
nowhere in the output, so it is not reproduced verbatim.  The
Unicode-table parameter is instantiated at the constantly-false function,
which agrees with the real tables at the only characters that consult
them here, the printable ASCII `'a'` and `'b'` (the newline is escaped
before the tables are consulted). -/
theorem extractPrint_counterexample :
    ¬ ['a', '\n', 'b'] <:+: extractPrintText (fun _ => false) ['a', '\n', 'b'] := by decide

/-- Claim C7, amended: `extract` prints the Debug representation of the
decoded text — the text surrounded by double quotes, with NUL, tab,
carriage return, newline, backslash and quote turned into backslash
escapes and non-printable or grapheme-extended codepoints into `\u{...}`
escapes; text consisting only of printable ASCII characters other than
backslash and double quote (characters the Unicode tables certainly leave
unescaped, so `uescape` is `false` there) therefore appears verbatim, as
a contiguous substring between the added quotes, in the printed line. -/
theorem extractPrint_plain_text (uescape : Char → Bool) (s : List Char)
    (hu : ∀ c ∈ s, uescape c = false)
    (h : ∀ c ∈ s, 0x20 ≤ c.toNat ∧ c.toNat ≤ 0x7e ∧ c ≠ '\\' ∧ c ≠ '"') :
    extractPrintText uescape s = "contents = ".toList ++ ['"'] ++ s ++ ['"', '\n'] ∧
      s <:+: extractPrintText uescape s := by
  have hesc := flatten_escape_plain uescape s hu h
  constructor
  · simp [extractPrintText, strDebug, hesc]
  · refine ⟨"contents = ".toList ++ ['"'], ['"', '\n'], ?_⟩
    simp [extractPrintText, strDebug, hesc]

/-- Witness for the amended claim C7 at the concrete text `"hello"` (with
the Unicode-table parameter constantly false, agreeing with the real
tables on these printable ASCII characters). -/
theorem extractPrint_plain_text_witness :
    extractPrintText (fun _ => false) "hello".toList
        = "contents = ".toList ++ ['"'] ++ "hello".toList ++ ['"', '\n'] ∧
      "hello".toList <:+: extractPrintText (fun _ => false) "hello".toList :=
  extractPrint_plain_text (fun _ => false) "hello".toList (by decide) (by decide)

/-- Claim C8: an absent owner or group identifier is rendered by the
shared `Optional` display rule as the fixed placeholder glyph `∅` — never
an empty cell — and the UID and GID cells of the verbose columns both go
through that same rule, so a row with both absent shows `∅` in both
cells. -/
theorem verboseCols_absent (m : List Char) (α : Type) (f : α → List Char) :
    optionalDisplay f (none : Option α) = ['∅'] ∧
      optionalDisplay f (none : Option α) ≠ [] ∧
      verboseCols m none none = ['\t'] ++ m ++ ['\t', '∅', '\t', '∅'] := by
  refine ⟨rfl, by simp [optionalDisplay], ?_⟩
  simp [verboseCols, optionalDisplay]

/-- Claim C10: in verbose list mode, when the symlink-target read fails
(an I/O error from the byte-range reader, or contents that are not valid
UTF-8), the driver `.unwrap()`s the result and panics: the row computation
yields `none` (the panic) rather than an error value or any fallback
rendering. -/
theorem listRowVerbose_symlink_read_failure (mode rawName size modified : List Char)
    (uid gid : Option Nat) (kind : EntryKind) (readTarget : Option (List Char))
    (hk : kind = EntryKind.symlink) (hr : readTarget = none) :
    listRowVerbose mode rawName size modified uid gid kind readTarget = none := by
  subst hk hr
  unfold listRowVerbose
  cases truncatePath rawName 55 <;> rfl

/-- Witness for claim C10 at a concrete symlink row whose target read
failed. -/
theorem listRowVerbose_symlink_read_failure_witness :
    listRowVerbose "lrwxrwxrwx".toList "link".toList "9 B".toList "2019-01-01".toList
      none none EntryKind.symlink none = none :=
  listRowVerbose_symlink_read_failure _ _ _ _ _ _ _ _ rfl rfl

end RcZip
